import Mathlib

/-!
Verification of the libini INI parser: a shallow embedding of the lexer
(src/lexer.cpp, include/lexer.hpp), the token model (include/tokens.hpp) and
the recursive-descent parser with its query surface (include/parser.hpp),
together with theorems settling the specification claims.

The character stream (std::istream_iterator over the open file) is modelled
as the list of remaining characters; std::string as String; the lexer's
mutable delimiter predicate as the inductive Delim covering exactly the
predicates the source ever assigns to it; std::variant IniVariant as an
inductive with the same alternative order (index matters to the parser);
float payloads produced by std::stof as exact decimal rationals; C++
exceptions as Except values.
-/

namespace libini

/-! Character predicates from include/lexer.hpp (make_predicate / compose). -/

def is_whitespace (c : Char) : Bool := c == ' ' || c == '\t'

def is_comment (c : Char) : Bool := c == '#'

def is_eol (c : Char) : Bool := c == '\n' || c == '\r'

def is_numeric (c : Char) : Bool := '0' ≤ c && c ≤ '9'

def is_whitespace_or_eol (c : Char) : Bool := is_eol c || is_whitespace c

/-- The values ever assigned to the lexer's mutable delimiter Predicate:
the initial always-false lambda, make_predicate of a single character,
is_whitespace, and is_eol. -/
inductive Delim where
  | dfalse
  | dchar (d : Char)
  | dws
  | deol
deriving DecidableEq

def Delim.eval : Delim → Char → Bool
  | .dfalse, _ => false
  | .dchar d, c => c == d
  | .dws, c => is_whitespace c
  | .deol, c => is_eol c

/-- TokenType from include/tokens.hpp. -/
inductive TokenType where
  | LBrace
  | RBrace
  | Equals
  | DoubleQuote
  | SingleQuote
  | Section
  | Identifier
  | String
  | Number
  | Null
  | EndOfFile
deriving DecidableEq

/-- IniVariant = std::variant of the ten token structs, in declaration order
(the parser branches on the variant index, so the order matters). The float
payload of IniNumber is modelled as an exact rational. -/
inductive IniVariant where
  | IniSection (token_value : String)
  | IniNumber (token_value : ℚ)
  | IniString (token_value : String)
  | IniIdentifier (token_value : String)
  | IniNull
  | IniLBrace
  | IniRBrace
  | IniEquals
  | IniDoubleQuote
  | IniSingleQuote
deriving DecidableEq

/-- std::variant::index for IniVariant. -/
def IniVariant.index : IniVariant → Nat
  | .IniSection _ => 0
  | .IniNumber _ => 1
  | .IniString _ => 2
  | .IniIdentifier _ => 3
  | .IniNull => 4
  | .IniLBrace => 5
  | .IniRBrace => 6
  | .IniEquals => 7
  | .IniDoubleQuote => 8
  | .IniSingleQuote => 9

/-! The lexer, src/lexer.cpp. -/

/-- IniLexer::read_name with the default (always-false) is_ignorable
predicate, which is what every call site uses: accumulate characters up to
(not including) the delimiter or end of input. -/
def read_name : List Char → (Char → Bool) → String × List Char
  | [], _ => ("", [])
  | c :: rest, delimiter =>
    if delimiter c then ("", c :: rest)
    else
      let p := read_name rest delimiter
      (String.mk (c :: p.1.data), p.2)

/-- The delimiter built in IniLexer::read_number:
compose(is_eol, compose(is_whitespace, not-numeric)). -/
def number_delimiter (c : Char) : Bool := is_eol c || (is_whitespace c || ! is_numeric c)

/-- IniLexer::read_number: digit run, then optionally a dot and a further
digit run. Dereferencing the stream iterator at end of input yields the
last extracted character, which at that point is never a dot, so the
end-of-input case falls into the no-fraction branch. -/
def read_number (cs : List Char) : String × List Char :=
  let p := read_name cs number_delimiter
  match p.2 with
  | '.' :: rest =>
    let q := read_name rest number_delimiter
    (p.1 ++ "." ++ q.1, q.2)
  | _ => p

/-- Model of std::stof on the strings this lexer feeds it (digit run with
an optional fraction part), as an exact rational. -/
def digits_to_nat (l : List Char) : Nat :=
  l.foldl (fun a c => a * 10 + (c.toNat - Char.toNat '0')) 0

def parse_decimal (s : String) : ℚ :=
  match s.data.splitOn '.' with
  | [i] => (digits_to_nat i : ℚ)
  | [i, f] => (digits_to_nat i : ℚ) + (digits_to_nat f : ℚ) / (10 : ℚ) ^ f.length
  | _ => 0

/-- IniLexer::skip_comment: advance until an end-of-line character, leaving
the iterator on that character (the caller's whitespace skip consumes it). -/
def skip_comment : List Char → List Char
  | [] => []
  | c :: rest => if is_eol c then c :: rest else skip_comment rest

theorem skip_comment_length_le (cs : List Char) : (skip_comment cs).length ≤ cs.length := by
  induction cs with
  | nil => simp [skip_comment]
  | cons c rest ih =>
    simp only [skip_comment]
    split
    · exact Nat.le_refl _
    · exact Nat.le_trans ih (Nat.le_succ _)

/-- The skipping phase at the top of IniLexer::next_token: discard runs of
whitespace and end-of-line characters and whole single-line comments, until
a substantive character or end of input. -/
def skip_ws_comments (cs : List Char) : List Char :=
  match cs with
  | [] => []
  | c :: rest =>
    if h1 : is_whitespace_or_eol c then skip_ws_comments rest
    else if h2 : is_comment c then skip_ws_comments (skip_comment (c :: rest))
    else c :: rest
termination_by cs.length
decreasing_by
  · simp
  · have heol : is_eol c = false := by
      revert h1
      simp [is_whitespace_or_eol]
      intro h _
      exact h
    simp [skip_comment, heol]
    exact Nat.lt_succ_of_le (skip_comment_length_le rest)

/-- The transition table in IniLexer::next_token, keyed on the previously
emitted token kind: decide the next token kind and update the delimiter.
The character argument is the first substantive character (already past the
skipping phase), which is inspected but not consumed here. -/
def next_token_switch (previous : TokenType) (d : Delim) (next : Char) : TokenType × Delim :=
  match previous with
  | .LBrace => (.Section, .dchar ']')
  | .Section => (.RBrace, .dws)
  | .DoubleQuote =>
    if ! d.eval '"' then (.String, .dchar '"')
    else (.Identifier, .dws)
  | .SingleQuote =>
    if ! d.eval '\'' then (.String, .dchar '\'')
    else if next == '[' then (.LBrace, d)
    else (.Identifier, .dws)
  | .String =>
    if d.eval '"' then (.DoubleQuote, d) else (.SingleQuote, d)
  | .Identifier => (.Equals, d)
  | .Equals =>
    if is_numeric next then (.Number, d)
    else if next == '\'' then (.SingleQuote, d)
    else if next == '"' then (.DoubleQuote, d)
    else (.Identifier, .deol)
  | .Null => (.LBrace, d)
  | _ =>
    if next == '[' then (.LBrace, d) else (.Identifier, d)

/-- IniLexer::next_token: skip whitespace and comments, return EndOfFile at
end of input, otherwise apply the transition table to the previous token
kind and the next raw character (which stays in the stream). -/
def next_token (cs : List Char) (previous : TokenType) (d : Delim) :
    TokenType × Delim × List Char :=
  match skip_ws_comments cs with
  | [] => (.EndOfFile, d, [])
  | c :: rest =>
    let s := next_token_switch previous d c
    (s.1, s.2, c :: rest)

/-- One arm of the emission switch in the IniLexer::read_all loop body:
given the decided token kind, consume input and produce the token. -/
def lex_emit : TokenType → List Char → Delim → Option IniVariant × List Char
  | .LBrace, cs, _ => (some .IniLBrace, cs.tail)
  | .Section, cs, d =>
    let p := read_name cs d.eval
    (some (.IniSection p.1), p.2)
  | .RBrace, cs, _ => (some .IniRBrace, cs.tail)
  | .SingleQuote, cs, _ => (some .IniSingleQuote, cs.tail)
  | .DoubleQuote, cs, _ => (some .IniDoubleQuote, cs.tail)
  | .String, cs, d =>
    let p := read_name cs d.eval
    (some (.IniString p.1), p.2)
  | .Equals, cs, _ => (some .IniEquals, cs.tail)
  | .Identifier, cs, d =>
    let p := read_name cs d.eval
    (some (.IniIdentifier p.1), p.2)
  | .Number, cs, _ =>
    let p := read_number cs
    (some (.IniNumber (parse_decimal p.1)), p.2)
  | _, cs, _ => (none, cs)

theorem read_name_length_le (cs : List Char) (p : Char → Bool) :
    (read_name cs p).2.length ≤ cs.length := by
  induction cs with
  | nil => simp [read_name]
  | cons c rest ih =>
    simp only [read_name]
    split
    · exact Nat.le_refl _
    · exact Nat.le_trans ih (Nat.le_succ _)

theorem read_number_length_le (cs : List Char) :
    (read_number cs).2.length ≤ cs.length := by
  have h1 := read_name_length_le cs number_delimiter
  simp only [read_number]
  split
  · rename_i rest heq
    have h2 := read_name_length_le rest number_delimiter
    have h3 : rest.length + 1 ≤ cs.length := by
      rw [heq] at h1
      simpa using h1
    simpa using Nat.le_trans h2 (Nat.le_trans (Nat.le_succ _) h3)
  · exact h1

theorem lex_emit_length_le (t : TokenType) (cs : List Char) (d : Delim) :
    (lex_emit t cs d).2.length ≤ cs.length := by
  cases t <;>
    simp [lex_emit, read_name_length_le, read_number_length_le]

/-- Loop progress measure: weight of a token kind, used only to prove that
the read_all loop terminates. -/
def token_weight : TokenType → Nat
  | .Number => 2
  | .Null => 1
  | .Section => 1
  | .String => 1
  | .Identifier => 1
  | _ => 0

theorem skip_ws_comments_eq_or_lt (cs : List Char) :
    skip_ws_comments cs = cs ∨ (skip_ws_comments cs).length < cs.length := by
  induction cs using skip_ws_comments.induct with
  | case1 => exact Or.inl (by rw [skip_ws_comments])
  | case2 c rest h1 ih =>
    right
    rw [skip_ws_comments, dif_pos h1]
    rcases ih with h | h
    · rw [h]; exact Nat.lt_succ_self _
    · exact Nat.lt_trans h (Nat.lt_succ_self _)
  | case3 c rest h1 h2 ih =>
    right
    rw [skip_ws_comments, dif_neg h1, dif_pos h2]
    have hlen : (skip_comment (c :: rest)).length ≤ rest.length + 1 := by
      simpa using skip_comment_length_le (c :: rest)
    rcases ih with h | h
    · rw [h]
      have heol : is_eol c = false := by
        revert h1
        simp [is_whitespace_or_eol]
        intro h _
        exact h
      rw [skip_comment, heol]
      simp only [Bool.false_eq_true, if_false]
      exact Nat.lt_succ_of_le (skip_comment_length_le rest)
    · exact Nat.lt_of_lt_of_le h (by simpa using hlen)
  | case4 c rest h1 h2 => exact Or.inl (by rw [skip_ws_comments, dif_neg h1, dif_neg h2])

theorem lex_emit_zero_weight_consumes (t : TokenType) (cs : List Char) (d : Delim)
    (h0 : token_weight t = 0) (h1 : t ≠ .EndOfFile) (h2 : cs ≠ []) :
    (lex_emit t cs d).2.length < cs.length := by
  cases cs with
  | nil => exact absurd rfl h2
  | cons c rest =>
    cases t <;> simp_all [lex_emit, token_weight]

theorem token_weight_switch_lt (p : TokenType) (d : Delim) (c : Char)
    (h : 1 ≤ token_weight p) :
    token_weight (next_token_switch p d c).1 < token_weight p := by
  cases p with
  | Null => simp [next_token_switch, token_weight]
  | Section => simp [next_token_switch, token_weight]
  | Identifier => simp [next_token_switch, token_weight]
  | String =>
    simp only [next_token_switch]
    split <;> simp [token_weight]
  | Number =>
    simp only [next_token_switch]
    split <;> simp [token_weight]
  | LBrace => simp [token_weight] at h
  | RBrace => simp [token_weight] at h
  | Equals => simp [token_weight] at h
  | DoubleQuote => simp [token_weight] at h
  | SingleQuote => simp [token_weight] at h
  | EndOfFile => simp [token_weight] at h

/-- The loop in IniLexer::read_all: starting from the Null token, repeatedly
emit the token decided in the previous round and ask next_token for the
following one, stopping when it answers EndOfFile (which is never emitted). -/
def read_loop (token : TokenType) (cs : List Char) (d : Delim) : List IniVariant :=
  if token = .EndOfFile then []
  else
    match he : lex_emit token cs d with
    | (emitted, cs1) =>
      match hn : next_token cs1 token d with
      | (t2, d2, cs2) =>
        if t2 = .EndOfFile then emitted.toList
        else emitted.toList ++ read_loop t2 cs2 d2
termination_by (cs.length, token_weight token)
decreasing_by
  have hle : cs1.length ≤ cs.length := by
    have h := lex_emit_length_le token cs d
    rw [he] at h
    exact h
  cases hsw : skip_ws_comments cs1 with
  | nil =>
    have hnt : next_token cs1 token d = (.EndOfFile, d, []) := by
      rw [next_token, hsw]
    rw [hnt] at hn
    injection hn with h1 _
    exact absurd h1.symm (by assumption)
  | cons c rest =>
    have hnt : next_token cs1 token d =
        ((next_token_switch token d c).1, (next_token_switch token d c).2, c :: rest) := by
      rw [next_token, hsw]
    rw [hnt] at hn
    injection hn with h1 hrest
    injection hrest with h2 h3
    rcases skip_ws_comments_eq_or_lt cs1 with heq | hlt
    · -- no skipping: the scanner is at cs1 itself
      rw [heq] at hsw
      have hcs2 : cs2 = cs1 := by rw [← h3, ← hsw]
      rcases Nat.lt_or_ge cs1.length cs.length with hl | hg
      · refine Prod.Lex.left _ _ ?_
        rw [hcs2]
        exact hl
      · have hceq : cs1.length = cs.length := Nat.le_antisymm hle hg
        by_cases hw : 1 ≤ token_weight token
        · have hwlt := token_weight_switch_lt token d c hw
          rw [h1] at hwlt
          have hfst : cs2.length = cs.length := by rw [hcs2, hceq]
          rw [show (cs2.length, token_weight t2) = (cs.length, token_weight t2) by
            rw [hfst]]
          exact Prod.Lex.right _ hwlt
        · have hw0 : token_weight token = 0 := by omega
          have hne : cs ≠ [] := by
            intro hnil
            rw [hnil] at hle
            have h0 : cs1 = [] := List.length_eq_zero.mp (Nat.le_zero.mp hle)
            rw [h0] at hsw
            exact absurd hsw (by simp)
          have hcons := lex_emit_zero_weight_consumes token cs d hw0
            (by assumption) hne
          rw [he] at hcons
          simp only at hcons
          omega
    · refine Prod.Lex.left _ _ ?_
      rw [← h3, ← hsw]
      exact Nat.lt_of_lt_of_le hlt hle

/-- IniLexer::read_all / tokenize: the complete ordered token sequence of a
character source. -/
def read_all (cs : List Char) : List IniVariant :=
  read_loop .Null cs .dfalse

/-! The parser and tree model, include/parser.hpp. -/

/-- The exceptions the parser machinery can raise: std::runtime_error with
its message, std::bad_variant_access from std::get on the wrong
alternative, and the undefined behaviour of dereferencing a past-the-end
iterator (made explicit as its own outcome). -/
inductive PErr where
  | runtime (msg : String)
  | bad_variant_access
  | deref_end
deriving DecidableEq

/-- A leaf: a member name and its IniContainer, which simply stores the
IniVariant value. -/
structure IniParserTreeLeaf where
  name : String
  container : IniVariant
deriving DecidableEq

/-- A section node: a name and the ordered list of its leaf children
(std::vector, push_back appends). -/
structure IniParserTreeNode where
  name : String
  children : List IniParserTreeLeaf
deriving DecidableEq

/-- IniParserTreeNode::insert. -/
def insert_child (n : IniParserTreeNode) (child : IniParserTreeLeaf) : IniParserTreeNode :=
  { n with children := n.children ++ [child] }

/-- The scan inside IniParserTreeNode::operator[]: first child whose name
equals the requested one. -/
def find_child : List IniParserTreeLeaf → String → Option IniParserTreeLeaf
  | [], _ => none
  | child :: rest, name =>
    if child.name == name then some child else find_child rest name

/-- IniParserTreeNode::operator[]: first matching child, or
std::runtime_error("libini error: member not found."). -/
def node_bracket (n : IniParserTreeNode) (name : String) : Except PErr IniParserTreeLeaf :=
  match find_child n.children name with
  | some child => .ok child
  | none => .error (.runtime "libini error: member not found.")

/-- The scan inside IniParserTreeNode::has_member. -/
def has_child : List IniParserTreeLeaf → String → Bool
  | [], _ => false
  | child :: rest, name =>
    if child.name == name then true else has_child rest name

/-- IniParserTreeNode::has_member. -/
def node_has_member (n : IniParserTreeNode) (name : String) : Bool :=
  has_child n.children name

/-- IniParserResult: the root list of section nodes. -/
structure IniParserResult where
  roots : List IniParserTreeNode
deriving DecidableEq

/-- The loop in IniParserResult::has_member. -/
def result_has_member_loop : List IniParserTreeNode → String → Bool
  | [], _ => false
  | n :: rest, name =>
    if node_has_member n name then true else result_has_member_loop rest name

def result_has_member (r : IniParserResult) (name : String) : Bool :=
  result_has_member_loop r.roots name

/-- The loop in IniParserResult::operator[]: try each node in order,
swallowing std::runtime_error (the not-found signal) and moving on; when no
node delivers, std::runtime_error("libini error: member not found"). -/
def result_bracket_loop : List IniParserTreeNode → String → Except PErr IniParserTreeLeaf
  | [], _ => .error (.runtime "libini error: member not found")
  | n :: rest, name =>
    match node_bracket n name with
    | .ok child => .ok child
    | .error (.runtime _) => result_bracket_loop rest name
    | .error e => .error e

def result_bracket (r : IniParserResult) (name : String) : Except PErr IniParserTreeLeaf :=
  result_bracket_loop r.roots name

/-- get_value of IniString through IniContainer: std::get throws
bad_variant_access when the stored alternative differs. -/
def leaf_get_string (l : IniParserTreeLeaf) : Except PErr String :=
  match l.container with
  | .IniString s => .ok s
  | _ => .error .bad_variant_access

def leaf_get_number (l : IniParserTreeLeaf) : Except PErr ℚ :=
  match l.container with
  | .IniNumber q => .ok q
  | _ => .error .bad_variant_access

def leaf_get_identifier (l : IniParserTreeLeaf) : Except PErr String :=
  match l.container with
  | .IniIdentifier s => .ok s
  | _ => .error .bad_variant_access

/-- IniParserResult::get_value of IniString: lookup then typed payload
extraction. -/
def result_get_string (r : IniParserResult) (name : String) : Except PErr String :=
  match result_bracket r name with
  | .ok leaf => leaf_get_string leaf
  | .error e => .error e

def result_get_number (r : IniParserResult) (name : String) : Except PErr ℚ :=
  match result_bracket r name with
  | .ok leaf => leaf_get_number leaf
  | .error e => .error e

/-- std::get of the individual alternatives, as used by the parser. -/
def as_identifier : IniVariant → Except PErr String
  | .IniIdentifier s => .ok s
  | _ => .error .bad_variant_access

def as_equals : IniVariant → Except PErr Unit
  | .IniEquals => .ok ()
  | _ => .error .bad_variant_access

def as_lbrace : IniVariant → Except PErr Unit
  | .IniLBrace => .ok ()
  | _ => .error .bad_variant_access

def as_section : IniVariant → Except PErr String
  | .IniSection s => .ok s
  | _ => .error .bad_variant_access

/-- IniParser::remove_head: pop up to limit tokens off the front. -/
def remove_head : List IniVariant → Nat → List IniVariant
  | tokens, 0 => tokens
  | [], _ + 1 => []
  | _ :: tokens, n + 1 => remove_head tokens n

theorem remove_head_eq_drop (tokens : List IniVariant) (n : Nat) :
    remove_head tokens n = tokens.drop n := by
  induction tokens generalizing n with
  | nil => cases n <;> simp [remove_head]
  | cons t rest ih => cases n <;> simp [remove_head, ih]

/-- IniParser::parse_value. The caller always passes the iterator at the
third token of the sequence, so the token list carries at least that shape;
a kind whose variant index is at least 8 (the two quote tokens) makes the
parser take the following token as the value and pop three tokens, a Number
(index 1) is taken directly popping one, and any other kind throws
bad_variant_access. Advancing past the last token and dereferencing is
undefined behaviour, recorded as deref_end. -/
def parse_value (tokens : List IniVariant) : Except PErr (IniVariant × List IniVariant) :=
  match tokens with
  | _ :: _ :: t3 :: rest =>
    if 8 ≤ t3.index then
      match rest with
      | r :: _ => .ok (r, remove_head tokens 3)
      | [] => .error .deref_end
    else if t3.index == 1 then .ok (t3, remove_head tokens 1)
    else .error .bad_variant_access
  | _ => .error .deref_end

theorem parse_value_length_lt (tokens : List IniVariant) (v : IniVariant)
    (rest : List IniVariant) (h : parse_value tokens = .ok (v, rest)) :
    rest.length < tokens.length := by
  unfold parse_value at h
  split at h
  · rename_i t1 t2 t3 r
    split at h
    · split at h
      · injection h with h1
        injection h1 with _ h2
        rw [← h2, remove_head_eq_drop]
        simp only [List.length_drop, List.length_cons]
        omega
      · exact absurd h (by simp)
    · split at h
      · injection h with h1
        injection h1 with _ h2
        rw [← h2, remove_head_eq_drop]
        simp only [List.length_drop, List.length_cons]
        omega
      · exact absurd h (by simp)
  · exact absurd h (by simp)

/-- IniParser::parse_member: return silently when fewer than 3 tokens
remain or the front token has variant index 5 (IniLBrace); otherwise match
Identifier, Equals, a value, build the leaf, pop the consumed tokens,
insert, and recurse while more than 2 tokens remain. A bad_variant_access
is caught and rethrown unchanged. -/
def parse_member (tokens : List IniVariant) (node : IniParserTreeNode) :
    Except PErr (IniParserTreeNode × List IniVariant) :=
  if tokens.length < 3 then .ok (node, tokens)
  else
    match tokens with
    | t1 :: t2 :: t3 :: rest =>
      if t1.index == 5 then .ok (node, tokens)
      else
        match as_identifier t1 with
        | .error e => .error e
        | .ok identifier =>
          match as_equals t2 with
          | .error e => .error e
          | .ok _ =>
            match hv : parse_value (t1 :: t2 :: t3 :: rest) with
            | .error e => .error e
            | .ok (value, toks1) =>
              let leaf : IniParserTreeLeaf := { name := identifier, container := value }
              let toks2 := remove_head toks1 2
              let node2 := insert_child node leaf
              if toks2.length > 2 then parse_member toks2 node2
              else .ok (node2, toks2)
    | _ => .ok (node, tokens)
termination_by tokens.length
decreasing_by
  have h1 := parse_value_length_lt _ _ _ hv
  have h2 : (remove_head toks1 2).length ≤ toks1.length := by
    rw [remove_head_eq_drop]
    simp
  simp only [List.length_cons] at h1 ⊢
  omega

theorem parse_member_length_le :
    ∀ (N : Nat) (tokens : List IniVariant) (node node2 : IniParserTreeNode)
      (rest : List IniVariant), tokens.length ≤ N →
      parse_member tokens node = .ok (node2, rest) → rest.length ≤ tokens.length := by
  intro N
  induction N with
  | zero =>
    intro tokens node node2 rest hlen h
    rw [parse_member.eq_def, if_pos (by omega)] at h
    injection h with h1
    injection h1 with _ h2
    rw [h2]
  | succ n ih =>
    intro tokens node node2 rest hlen h
    rw [parse_member.eq_def] at h
    by_cases hlt : tokens.length < 3
    · rw [if_pos hlt] at h
      injection h with h1
      injection h1 with _ h2
      rw [h2]
    · rw [if_neg hlt] at h
      split at h
      · rename_i t1 t2 t3 r
        split at h
        · injection h with h1
          injection h1 with _ h2
          rw [h2]
        · split at h
          · exact absurd h (by simp)
          · split at h
            · exact absurd h (by simp)
            · split at h
              · exact absurd h (by simp)
              · rename_i idf hid u hequ value toks1 hv
                have h1 := parse_value_length_lt _ _ _ hv
                have h2 : (remove_head toks1 2).length ≤ toks1.length := by
                  rw [remove_head_eq_drop]
                  simp
                dsimp only at h
                split at h
                · rename_i hgt
                  have h3 := ih _ _ _ _ (by simp only [List.length_cons] at h1 hlen ⊢; omega) h
                  simp only [List.length_cons] at h1 ⊢
                  omega
                · injection h with hh
                  injection hh with _ hr
                  rw [← hr]
                  simp only [List.length_cons] at h1 ⊢
                  omega
      · injection h with h1
        injection h1 with _ h2
        rw [h2]

/-- The message of every structural error thrown by IniParser::parse_section. -/
def parse_section_msg : String :=
  "libini error: parser encountered unexpected token while parsing section."

/-- IniParser::parse_section: an empty token sequence is success; otherwise
the front token must be IniLBrace (std::get throwing bad_variant_access is
caught and converted to the runtime error), the following token is the
IniSection naming the node (same conversion on mismatch; with a single
token left the advance past the end is undefined behaviour), the matched
prefix is popped (remove_head, default limit 3), parse_member fills the
node (a bad_variant_access escaping it is converted by this catch; a
runtime error is rethrown unchanged), the node is appended to the roots,
and parsing recurses on the remaining tokens. -/
def parse_section (tokens : List IniVariant) (roots : List IniParserTreeNode) :
    Except PErr (List IniParserTreeNode) :=
  match tokens with
  | [] => .ok roots
  | [front] =>
    (match as_lbrace front with
     | .error _ => .error (.runtime parse_section_msg)
     | .ok _ => .error .deref_end)
  | front :: second :: tail =>
    match as_lbrace front with
    | .error _ => .error (.runtime parse_section_msg)
    | .ok _ =>
      match as_section second with
      | .error _ => .error (.runtime parse_section_msg)
      | .ok sectionName =>
        match hm : parse_member (remove_head (front :: second :: tail) 3)
            { name := sectionName, children := [] } with
        | .error .bad_variant_access => .error (.runtime parse_section_msg)
        | .error e => .error e
        | .ok (node, tokens2) => parse_section tokens2 (roots ++ [node])
termination_by tokens.length
decreasing_by
  have h1 : (remove_head (front :: second :: tail) 3).length ≤ tail.length := by
    rw [remove_head_eq_drop]
    simp
  have h2 := parse_member_length_le (remove_head (front :: second :: tail) 3).length
    (remove_head (front :: second :: tail) 3) _ _ _ (Nat.le_refl _) hm
  simp only [List.length_cons]
  omega

/-- IniParser::build_tree: tokenize with the lexer, then parse the sections
into the root list. -/
def build_tree (cs : List Char) : Except PErr (List IniParserTreeNode) :=
  parse_section (read_all cs) []

/-- IniParser::parse: wrap the roots in an IniParserResult. -/
def parse (cs : List Char) : Except PErr IniParserResult :=
  match build_tree cs with
  | .ok roots => .ok { roots := roots }
  | .error e => .error e

/-- What the caller can observe of IniParser::parse_async. The detached
worker runs p.set_value(parse()) with no exception handler: when parse
returns normally, the promise is fulfilled and the future delivers the
result; when parse throws, the exception escapes the thread start function,
which calls std::terminate — the error is never stored in the promise. -/
inductive AsyncOutcome where
  | delivered (r : IniParserResult)
  | terminated
deriving DecidableEq

def parse_async (cs : List Char) : AsyncOutcome :=
  match parse cs with
  | .ok r => .delivered r
  | .error _ => .terminated

/-! Helper lemmas for stepping the lexer loop symbolically. -/

/-- A substantive character: neither whitespace nor end-of-line nor the
start of a comment, so the skipping phase stops on it. -/
def plain (c : Char) : Prop :=
  is_whitespace_or_eol c = false ∧ is_comment c = false

instance (c : Char) : Decidable (plain c) := by
  unfold plain
  infer_instance

theorem skip_ws_comments_plain (c : Char) (rest : List Char) (h : plain c) :
    skip_ws_comments (c :: rest) = c :: rest := by
  rw [skip_ws_comments, dif_neg (by simp [h.1]), dif_neg (by simp [h.2])]

theorem skip_ws_comments_ws (c : Char) (rest : List Char)
    (h : is_whitespace_or_eol c = true) :
    skip_ws_comments (c :: rest) = skip_ws_comments rest := by
  rw [skip_ws_comments, dif_pos h]

theorem next_token_of_skip (cs : List Char) (c : Char) (rest : List Char)
    (p : TokenType) (d : Delim) (h : skip_ws_comments cs = c :: rest) :
    next_token cs p d =
      ((next_token_switch p d c).1, (next_token_switch p d c).2, c :: rest) := by
  rw [next_token, h]

theorem next_token_of_skip_nil (cs : List Char) (p : TokenType) (d : Delim)
    (h : skip_ws_comments cs = []) :
    next_token cs p d = (.EndOfFile, d, []) := by
  rw [next_token, h]

theorem next_token_ws_cons (c : Char) (cs : List Char) (p : TokenType) (d : Delim)
    (h : is_whitespace_or_eol c = true) :
    next_token (c :: cs) p d = next_token cs p d := by
  rw [next_token, next_token, skip_ws_comments_ws c cs h]

theorem read_loop_eof (cs : List Char) (d : Delim) :
    read_loop .EndOfFile cs d = [] := by
  rw [read_loop.eq_def]
  simp

/-- One iteration of the read_all loop: emit the current token, then
continue from whatever next_token decides. -/
theorem read_loop_step (token : TokenType) (cs : List Char) (d : Delim)
    (emitted : Option IniVariant) (cs1 : List Char) (t2 : TokenType) (d2 : Delim)
    (cs2 : List Char) (h3 : token ≠ .EndOfFile)
    (h1 : lex_emit token cs d = (emitted, cs1))
    (h2 : next_token cs1 token d = (t2, d2, cs2)) :
    read_loop token cs d = emitted.toList ++ read_loop t2 cs2 d2 := by
  rw [read_loop.eq_def, if_neg h3]
  split
  rename_i em cs1x he
  rw [h1] at he
  injection he with he1 he2
  subst he1
  subst he2
  split
  rename_i t2x d2x cs2x hn
  rw [h2] at hn
  injection hn with hn1 hnr
  injection hnr with hn2 hn3
  subst hn1
  subst hn2
  subst hn3
  by_cases ht : t2 = .EndOfFile
  · rw [if_pos ht, ht, read_loop_eof]
    simp
  · rw [if_neg ht]

/-- read_name runs to the first character satisfying the delimiter, which
stays in the stream. -/
theorem read_name_stop (l : List Char) (p : Char → Bool) (r0 : Char) (rest : List Char)
    (hl : ∀ c ∈ l, p c = false) (hr : p r0 = true) :
    read_name (l ++ r0 :: rest) p = (String.mk l, r0 :: rest) := by
  induction l with
  | nil => simp [read_name, hr]
  | cons c l2 ih =>
    have hc : p c = false := hl c (by simp)
    have ih2 := ih (fun x hx => hl x (by simp [hx]))
    simp only [List.cons_append, read_name, hc, Bool.false_eq_true, if_false,
      List.append_eq, ih2]

/-- read_name consumes the whole input when no character matches the
delimiter. -/
theorem read_name_to_end (l : List Char) (p : Char → Bool)
    (hl : ∀ c ∈ l, p c = false) :
    read_name l p = (String.mk l, []) := by
  induction l with
  | nil => simp [read_name]
  | cons c l2 ih =>
    have hc : p c = false := hl c (by simp)
    have ih2 := ih (fun x hx => hl x (by simp [hx]))
    simp only [read_name, hc, Bool.false_eq_true, if_false, ih2]

theorem plain_not_ws (c : Char) (h : plain c) : is_whitespace c = false := by
  have h1 := h.1
  unfold is_whitespace_or_eol at h1
  cases hw : is_whitespace c
  · rfl
  · rw [hw] at h1
    simp at h1

theorem is_numeric_plain (c : Char) (h : is_numeric c = true) : plain c := by
  constructor
  · cases hb : is_whitespace_or_eol c
    · rfl
    · exfalso
      simp only [is_whitespace_or_eol, is_eol, is_whitespace, Bool.or_eq_true,
        beq_iff_eq] at hb
      rcases hb with (h1 | h1) | (h1 | h1) <;> subst h1 <;> simp [is_numeric] at h
  · cases hb : is_comment c
    · rfl
    · exfalso
      simp only [is_comment, beq_iff_eq] at hb
      subst hb
      simp [is_numeric] at h

theorem is_numeric_not_number_delimiter (c : Char) (h : is_numeric c = true) :
    number_delimiter c = false := by
  have hp := is_numeric_plain c h
  have h1 := hp.1
  unfold is_whitespace_or_eol at h1
  unfold number_delimiter
  cases heol : is_eol c <;> cases hws : is_whitespace c <;>
    simp [heol, hws, h] at h1 ⊢

/-! Helper lemmas for stepping the parser symbolically. -/

theorem parse_section_nil (roots : List IniParserTreeNode) :
    parse_section [] roots = .ok roots := by
  rw [parse_section.eq_def]

/-- A successful section header followed by a successful parse_member:
parse_section appends the populated node and recurses. -/
theorem parse_section_step_ok (s : String) (tail : List IniVariant)
    (roots : List IniParserTreeNode) (node : IniParserTreeNode)
    (tokens2 : List IniVariant)
    (hm : parse_member (remove_head (.IniLBrace :: .IniSection s :: tail) 3)
        { name := s, children := [] } = .ok (node, tokens2)) :
    parse_section (.IniLBrace :: .IniSection s :: tail) roots =
      parse_section tokens2 (roots ++ [node]) := by
  rw [parse_section.eq_def]
  simp only [as_lbrace, as_section]
  split
  · rename_i heq
    rw [hm] at heq
    exact absurd heq (by simp)
  · rename_i e heq hne
    rw [hm] at hne
    exact absurd hne (by simp)
  · rename_i node2 tokens2x heq
    rw [hm] at heq
    injection heq with heq1
    injection heq1 with hq1 hq2
    rw [hq1, hq2]

/-- A bad_variant_access escaping parse_member is converted by
parse_section into the fixed runtime error. -/
theorem parse_section_step_bva (s : String) (tail : List IniVariant)
    (roots : List IniParserTreeNode)
    (hm : parse_member (remove_head (.IniLBrace :: .IniSection s :: tail) 3)
        { name := s, children := [] } = .error .bad_variant_access) :
    parse_section (.IniLBrace :: .IniSection s :: tail) roots =
      .error (.runtime parse_section_msg) := by
  rw [parse_section.eq_def]
  simp only [as_lbrace, as_section]
  split
  · rfl
  · rename_i e heq hne
    rw [hm] at hne
    injection hne with hne1
    exact absurd hne1.symm heq
  · rename_i node2 tokens2x heq
    rw [hm] at heq
    exact absurd heq (by simp)

/-- A front token that is not IniLBrace (with at least two tokens left)
makes parse_section fail with the fixed runtime error. -/
theorem parse_section_front_err (front second : IniVariant) (tail : List IniVariant)
    (roots : List IniParserTreeNode)
    (h : as_lbrace front = .error PErr.bad_variant_access) :
    parse_section (front :: second :: tail) roots =
      .error (.runtime parse_section_msg) := by
  rw [parse_section.eq_def]
  simp only [h]

/-- A single remaining token that is not IniLBrace also fails with the
fixed runtime error. -/
theorem parse_section_single_err (front : IniVariant) (roots : List IniParserTreeNode)
    (h : as_lbrace front = .error PErr.bad_variant_access) :
    parse_section [front] roots = .error (.runtime parse_section_msg) := by
  rw [parse_section.eq_def]
  simp only [h]

/-! Symbolic lexing of a well-formed single-section, single-member file. -/

/-- Lexing the common prefix of a file of the shape
left-bracket, section name, right-bracket, newline, key, space, equals,
space, then a value of some shape Q: the first five tokens are fixed, and
the loop then continues from whatever next_token decides at Q with the
Equals token as the previous one and the whitespace delimiter. -/
theorem lex_single_member_header (S K Q : List Char)
    (hS0 : S ≠ []) (hS : ∀ c ∈ S, plain c ∧ c ≠ ']')
    (hK0 : K ≠ []) (hK : ∀ c ∈ K, plain c)
    (hKh : ∀ c ∈ K.head?.toList, c ≠ '[') :
    read_loop .Null ('[' :: (S ++ ']' :: '\n' :: (K ++ ' ' :: '=' :: ' ' :: Q))) .dfalse =
      .IniLBrace :: .IniSection (String.mk S) :: .IniRBrace ::
        .IniIdentifier (String.mk K) :: .IniEquals ::
        read_loop (next_token Q .Equals .dws).1 (next_token Q .Equals .dws).2.2
          (next_token Q .Equals .dws).2.1 := by
  rcases S with _ | ⟨s0, S2⟩
  · exact absurd rfl hS0
  rcases K with _ | ⟨k0, K2⟩
  · exact absurd rfl hK0
  have hps0 : plain s0 := (hS s0 (by simp)).1
  have hpk0 : plain k0 := hK k0 (by simp)
  have hk0 : k0 ≠ '[' := hKh k0 (by simp)
  simp only [List.cons_append]
  -- step 1: the Null round emits nothing and decides LBrace
  have hn1 : next_token ('[' :: (s0 :: (S2 ++ ']' :: '\n' ::
      (k0 :: (K2 ++ ' ' :: '=' :: ' ' :: Q))))) .Null .dfalse =
      (.LBrace, .dfalse, '[' :: (s0 :: (S2 ++ ']' :: '\n' ::
        (k0 :: (K2 ++ ' ' :: '=' :: ' ' :: Q))))) := by
    rw [next_token_of_skip _ '[' _ _ _ (skip_ws_comments_plain '[' _ (by decide))]
    rfl
  have st1 := read_loop_step .Null
    ('[' :: (s0 :: (S2 ++ ']' :: '\n' :: (k0 :: (K2 ++ ' ' :: '=' :: ' ' :: Q)))))
    .dfalse none
    ('[' :: (s0 :: (S2 ++ ']' :: '\n' :: (k0 :: (K2 ++ ' ' :: '=' :: ' ' :: Q)))))
    .LBrace .dfalse
    ('[' :: (s0 :: (S2 ++ ']' :: '\n' :: (k0 :: (K2 ++ ' ' :: '=' :: ' ' :: Q)))))
    (by decide) rfl hn1
  -- step 2: emit the left bracket, decide Section
  have hn2 : next_token (s0 :: (S2 ++ ']' :: '\n' ::
      (k0 :: (K2 ++ ' ' :: '=' :: ' ' :: Q)))) .LBrace .dfalse =
      (.Section, .dchar ']', s0 :: (S2 ++ ']' :: '\n' ::
        (k0 :: (K2 ++ ' ' :: '=' :: ' ' :: Q)))) := by
    rw [next_token_of_skip _ s0 _ _ _ (skip_ws_comments_plain s0 _ hps0)]
    rfl
  have st2 := read_loop_step .LBrace
    ('[' :: (s0 :: (S2 ++ ']' :: '\n' :: (k0 :: (K2 ++ ' ' :: '=' :: ' ' :: Q)))))
    .dfalse (some .IniLBrace)
    (s0 :: (S2 ++ ']' :: '\n' :: (k0 :: (K2 ++ ' ' :: '=' :: ' ' :: Q))))
    .Section (.dchar ']')
    (s0 :: (S2 ++ ']' :: '\n' :: (k0 :: (K2 ++ ' ' :: '=' :: ' ' :: Q))))
    (by decide) rfl hn2
  -- step 3: emit the section name, decide RBrace
  have hrS := read_name_stop (s0 :: S2) (Delim.eval (.dchar ']')) ']'
    ('\n' :: (k0 :: (K2 ++ ' ' :: '=' :: ' ' :: Q)))
    (fun c hc => beq_eq_false_iff_ne.mpr (hS c hc).2) (by decide)
  simp only [List.cons_append] at hrS
  have he3 : lex_emit .Section (s0 :: (S2 ++ ']' :: '\n' ::
      (k0 :: (K2 ++ ' ' :: '=' :: ' ' :: Q)))) (.dchar ']') =
      (some (.IniSection (String.mk (s0 :: S2))),
        ']' :: '\n' :: (k0 :: (K2 ++ ' ' :: '=' :: ' ' :: Q))) := by
    simp only [lex_emit]
    rw [hrS]
  have hn3 : next_token (']' :: '\n' :: (k0 :: (K2 ++ ' ' :: '=' :: ' ' :: Q)))
      .Section (.dchar ']') =
      (.RBrace, .dws, ']' :: '\n' :: (k0 :: (K2 ++ ' ' :: '=' :: ' ' :: Q))) := by
    rw [next_token_of_skip _ ']' _ _ _ (skip_ws_comments_plain ']' _ (by decide))]
    rfl
  have st3 := read_loop_step .Section
    (s0 :: (S2 ++ ']' :: '\n' :: (k0 :: (K2 ++ ' ' :: '=' :: ' ' :: Q))))
    (.dchar ']') (some (.IniSection (String.mk (s0 :: S2))))
    (']' :: '\n' :: (k0 :: (K2 ++ ' ' :: '=' :: ' ' :: Q)))
    .RBrace .dws
    (']' :: '\n' :: (k0 :: (K2 ++ ' ' :: '=' :: ' ' :: Q)))
    (by decide) he3 hn3
  -- step 4: emit the right bracket; skip the newline; decide Identifier
  have hbk0 : (k0 == '[') = false := beq_eq_false_iff_ne.mpr hk0
  have hn4 : next_token ('\n' :: (k0 :: (K2 ++ ' ' :: '=' :: ' ' :: Q))) .RBrace .dws =
      (.Identifier, .dws, k0 :: (K2 ++ ' ' :: '=' :: ' ' :: Q)) := by
    rw [next_token_ws_cons _ _ _ _ (by decide),
      next_token_of_skip _ k0 _ _ _ (skip_ws_comments_plain k0 _ hpk0)]
    simp [next_token_switch, hbk0]
  have st4 := read_loop_step .RBrace
    (']' :: '\n' :: (k0 :: (K2 ++ ' ' :: '=' :: ' ' :: Q)))
    .dws (some .IniRBrace)
    ('\n' :: (k0 :: (K2 ++ ' ' :: '=' :: ' ' :: Q)))
    .Identifier .dws
    (k0 :: (K2 ++ ' ' :: '=' :: ' ' :: Q))
    (by decide) rfl hn4
  -- step 5: emit the key, decide Equals
  have hrK := read_name_stop (k0 :: K2) (Delim.eval .dws) ' ' ('=' :: ' ' :: Q)
    (fun c hc => plain_not_ws c (hK c hc)) (by decide)
  simp only [List.cons_append] at hrK
  have he5 : lex_emit .Identifier (k0 :: (K2 ++ ' ' :: '=' :: ' ' :: Q)) .dws =
      (some (.IniIdentifier (String.mk (k0 :: K2))), ' ' :: '=' :: ' ' :: Q) := by
    simp only [lex_emit]
    rw [hrK]
  have hn5 : next_token (' ' :: '=' :: ' ' :: Q) .Identifier .dws =
      (.Equals, .dws, '=' :: ' ' :: Q) := by
    rw [next_token_ws_cons _ _ _ _ (by decide),
      next_token_of_skip _ '=' _ _ _ (skip_ws_comments_plain '=' _ (by decide))]
    rfl
  have st5 := read_loop_step .Identifier
    (k0 :: (K2 ++ ' ' :: '=' :: ' ' :: Q))
    .dws (some (.IniIdentifier (String.mk (k0 :: K2))))
    (' ' :: '=' :: ' ' :: Q)
    .Equals .dws
    ('=' :: ' ' :: Q)
    (by decide) he5 hn5
  -- step 6: emit the equals sign; skip the space; continue at Q
  have hn6 : next_token (' ' :: Q) .Equals .dws =
      ((next_token Q .Equals .dws).1, (next_token Q .Equals .dws).2.1,
        (next_token Q .Equals .dws).2.2) := by
    rw [next_token_ws_cons _ _ _ _ (by decide)]
  have st6 := read_loop_step .Equals ('=' :: ' ' :: Q) .dws (some .IniEquals) (' ' :: Q)
    (next_token Q .Equals .dws).1 (next_token Q .Equals .dws).2.1
    (next_token Q .Equals .dws).2.2 (by decide) rfl hn6
  rw [st1, st2, st3, st4, st5, st6]
  simp

/-- Lexing a double-quoted value at the position right after the equals
sign: opening quote, string payload, closing quote, end of input. -/
theorem lex_quoted_value (V : List Char) (hV : ∀ c ∈ V, c ≠ '"')
    (hVh : ∀ c ∈ V.head?.toList, plain c) :
    read_loop (next_token ('"' :: (V ++ ['"'])) .Equals .dws).1
        (next_token ('"' :: (V ++ ['"'])) .Equals .dws).2.2
        (next_token ('"' :: (V ++ ['"'])) .Equals .dws).2.1 =
      [.IniDoubleQuote, .IniString (String.mk V), .IniDoubleQuote] := by
  have hX : next_token ('"' :: (V ++ ['"'])) .Equals .dws =
      (.DoubleQuote, .dws, '"' :: (V ++ ['"'])) := by
    rw [next_token_of_skip _ '"' _ _ _ (skip_ws_comments_plain '"' _ (by decide))]
    rfl
  rw [hX]
  show read_loop .DoubleQuote ('"' :: (V ++ ['"'])) .dws = _
  -- opening quote: consume it, decide String
  have hsk7 : skip_ws_comments (V ++ ['"']) = V ++ ['"'] := by
    cases V with
    | nil => exact skip_ws_comments_plain '"' [] (by decide)
    | cons v0 V2 => exact skip_ws_comments_plain v0 _ (hVh v0 (by simp))
  have hn7 : next_token (V ++ ['"']) .DoubleQuote .dws =
      (.String, .dchar '"', V ++ ['"']) := by
    cases V with
    | nil =>
      rw [next_token_of_skip _ '"' [] _ _ hsk7]
      rfl
    | cons v0 V2 =>
      rw [next_token_of_skip _ v0 _ _ _ hsk7]
      rfl
  have st7 := read_loop_step .DoubleQuote ('"' :: (V ++ ['"'])) .dws
    (some .IniDoubleQuote) (V ++ ['"']) .String (.dchar '"') (V ++ ['"'])
    (by decide) rfl hn7
  -- the string payload: read to the closing quote, decide DoubleQuote
  have he8 : lex_emit .String (V ++ ['"']) (.dchar '"') =
      (some (.IniString (String.mk V)), ['"']) := by
    simp only [lex_emit]
    rw [read_name_stop V (Delim.eval (.dchar '"')) '"' []
      (fun c hc => beq_eq_false_iff_ne.mpr (hV c hc)) (by decide)]
  have hn8 : next_token ['"'] .String (.dchar '"') =
      (.DoubleQuote, .dchar '"', ['"']) := by
    rw [next_token_of_skip _ '"' [] _ _ (skip_ws_comments_plain '"' [] (by decide))]
    rfl
  have st8 := read_loop_step .String (V ++ ['"']) (.dchar '"')
    (some (.IniString (String.mk V))) ['"'] .DoubleQuote (.dchar '"') ['"']
    (by decide) he8 hn8
  -- the closing quote, then end of input
  have hn9 : next_token [] .DoubleQuote (.dchar '"') = (.EndOfFile, .dchar '"', []) :=
    next_token_of_skip_nil [] _ _ (by rw [skip_ws_comments])
  have st9 := read_loop_step .DoubleQuote ['"'] (.dchar '"') (some .IniDoubleQuote) []
    .EndOfFile (.dchar '"') [] (by decide) rfl hn9
  rw [st7, st8, st9, read_loop_eof]
  simp

/-- Lexing a single-quoted value at the position right after the equals
sign: opening quote, string payload, closing quote, end of input (at the
opening quote the delimiter is not yet the quote character, so a String is
expected next; at the closing quote it is, mirroring the double-quoted
case). -/
theorem lex_single_quoted_value (V : List Char) (hV : ∀ c ∈ V, c ≠ '\'')
    (hVh : ∀ c ∈ V.head?.toList, plain c) :
    read_loop (next_token ('\'' :: (V ++ ['\''])) .Equals .dws).1
        (next_token ('\'' :: (V ++ ['\''])) .Equals .dws).2.2
        (next_token ('\'' :: (V ++ ['\''])) .Equals .dws).2.1 =
      [.IniSingleQuote, .IniString (String.mk V), .IniSingleQuote] := by
  have hX : next_token ('\'' :: (V ++ ['\''])) .Equals .dws =
      (.SingleQuote, .dws, '\'' :: (V ++ ['\''])) := by
    rw [next_token_of_skip _ '\'' _ _ _ (skip_ws_comments_plain '\'' _ (by decide))]
    rfl
  rw [hX]
  show read_loop .SingleQuote ('\'' :: (V ++ ['\''])) .dws = _
  -- opening quote: consume it, decide String
  have hsk7 : skip_ws_comments (V ++ ['\'']) = V ++ ['\''] := by
    cases V with
    | nil => exact skip_ws_comments_plain '\'' [] (by decide)
    | cons v0 V2 => exact skip_ws_comments_plain v0 _ (hVh v0 (by simp))
  have hn7 : next_token (V ++ ['\'']) .SingleQuote .dws =
      (.String, .dchar '\'', V ++ ['\'']) := by
    cases V with
    | nil =>
      rw [next_token_of_skip _ '\'' [] _ _ hsk7]
      rfl
    | cons v0 V2 =>
      rw [next_token_of_skip _ v0 _ _ _ hsk7]
      rfl
  have st7 := read_loop_step .SingleQuote ('\'' :: (V ++ ['\''])) .dws
    (some .IniSingleQuote) (V ++ ['\'']) .String (.dchar '\'') (V ++ ['\''])
    (by decide) rfl hn7
  -- the string payload: read to the closing quote, decide SingleQuote
  have he8 : lex_emit .String (V ++ ['\'']) (.dchar '\'') =
      (some (.IniString (String.mk V)), ['\'']) := by
    simp only [lex_emit]
    rw [read_name_stop V (Delim.eval (.dchar '\'')) '\'' []
      (fun c hc => beq_eq_false_iff_ne.mpr (hV c hc)) (by decide)]
  have hn8 : next_token ['\''] .String (.dchar '\'') =
      (.SingleQuote, .dchar '\'', ['\'']) := by
    rw [next_token_of_skip _ '\'' [] _ _ (skip_ws_comments_plain '\'' [] (by decide))]
    rfl
  have st8 := read_loop_step .String (V ++ ['\'']) (.dchar '\'')
    (some (.IniString (String.mk V))) ['\''] .SingleQuote (.dchar '\'') ['\'']
    (by decide) he8 hn8
  -- the closing quote, then end of input
  have hn9 : next_token [] .SingleQuote (.dchar '\'') = (.EndOfFile, .dchar '\'', []) :=
    next_token_of_skip_nil [] _ _ (by rw [skip_ws_comments])
  have st9 := read_loop_step .SingleQuote ['\''] (.dchar '\'') (some .IniSingleQuote) []
    .EndOfFile (.dchar '\'') [] (by decide) rfl hn9
  rw [st7, st8, st9, read_loop_eof]
  simp

/-- Lexing a numeric value right after the equals sign: one Number token
carrying the decimal parse of the digits read_number collects, then end of
input. -/
theorem lex_number_value (v0 : Char) (V2 : List Char)
    (hnum : is_numeric v0 = true)
    (hread : read_number (v0 :: V2) = (String.mk (v0 :: V2), [])) :
    read_loop (next_token (v0 :: V2) .Equals .dws).1
        (next_token (v0 :: V2) .Equals .dws).2.2
        (next_token (v0 :: V2) .Equals .dws).2.1 =
      [.IniNumber (parse_decimal (String.mk (v0 :: V2)))] := by
  have hX : next_token (v0 :: V2) .Equals .dws = (.Number, .dws, v0 :: V2) := by
    rw [next_token_of_skip _ v0 V2 _ _ (skip_ws_comments_plain v0 V2 (is_numeric_plain v0 hnum))]
    simp [next_token_switch, hnum]
  rw [hX]
  show read_loop .Number (v0 :: V2) .dws = _
  have he : lex_emit .Number (v0 :: V2) .dws =
      (some (.IniNumber (parse_decimal (String.mk (v0 :: V2)))), []) := by
    simp only [lex_emit]
    rw [hread]
  have hn : next_token [] .Number .dws = (.EndOfFile, .dws, []) :=
    next_token_of_skip_nil [] _ _ (by rw [skip_ws_comments])
  rw [read_loop_step .Number (v0 :: V2) .dws _ [] .EndOfFile .dws [] (by decide) he hn,
    read_loop_eof]
  simp

/-! The read_number round trip for composite decimal literals. -/

theorem is_not_numeric_number_delimiter (c : Char) (h : is_numeric c = false) :
    number_delimiter c = true := by
  unfold number_delimiter
  simp [h]

theorem read_number_dot (N F rest : List Char)
    (hN : ∀ c ∈ N, is_numeric c = true) (hF : ∀ c ∈ F, is_numeric c = true)
    (hrest : ∀ r ∈ rest.head?.toList, is_numeric r = false) :
    read_number (N ++ '.' :: (F ++ rest)) =
      (String.mk N ++ "." ++ String.mk F, rest) := by
  have h1 : read_name (N ++ '.' :: (F ++ rest)) number_delimiter =
      (String.mk N, '.' :: (F ++ rest)) :=
    read_name_stop N number_delimiter '.' (F ++ rest)
      (fun c hc => is_numeric_not_number_delimiter c (hN c hc)) (by decide)
  have h2 : read_name (F ++ rest) number_delimiter = (String.mk F, rest) := by
    cases rest with
    | nil =>
      have h := read_name_to_end F number_delimiter
        (fun c hc => is_numeric_not_number_delimiter c (hF c hc))
      simpa using h
    | cons r rs =>
      exact read_name_stop F number_delimiter r rs
        (fun c hc => is_numeric_not_number_delimiter c (hF c hc))
        (is_not_numeric_number_delimiter r (hrest r (by simp)))
  simp only [read_number]
  rw [h1]
  split
  · rename_i rest2 heq
    injection heq with hdot htail
    rw [← htail, h2]
  · rename_i hne
    exact absurd rfl (hne (F ++ rest))

/-! Helper lemmas for stepping parse_member on short or well-shaped token
lists. -/

theorem parse_member_nil (node : IniParserTreeNode) :
    parse_member [] node = .ok (node, []) := by
  rw [parse_member.eq_def, if_pos (by simp)]

theorem parse_member_one (t : IniVariant) (node : IniParserTreeNode) :
    parse_member [t] node = .ok (node, [t]) := by
  rw [parse_member.eq_def, if_pos (by simp)]

theorem parse_member_quoted (s k v : String) :
    parse_member [.IniIdentifier k, .IniEquals, .IniDoubleQuote, .IniString v,
      .IniDoubleQuote] (IniParserTreeNode.mk s []) =
      .ok (IniParserTreeNode.mk s [IniParserTreeLeaf.mk k (.IniString v)], []) := by
  simp [parse_member, parse_value, IniVariant.index, remove_head, as_identifier,
    as_equals, insert_child]

theorem parse_member_number (s k : String) (q : ℚ) :
    parse_member [.IniIdentifier k, .IniEquals, .IniNumber q]
      (IniParserTreeNode.mk s []) =
      .ok (IniParserTreeNode.mk s [IniParserTreeLeaf.mk k (.IniNumber q)], []) := by
  simp [parse_member, parse_value, IniVariant.index, remove_head, as_identifier,
    as_equals, insert_child]

theorem parse_single_quoted (s k v : String) :
    parse_section [.IniLBrace, .IniSection s, .IniRBrace, .IniIdentifier k,
      .IniEquals, .IniDoubleQuote, .IniString v, .IniDoubleQuote] [] =
      .ok [IniParserTreeNode.mk s [IniParserTreeLeaf.mk k (.IniString v)]] := by
  rw [parse_section_step_ok s
    [.IniRBrace, .IniIdentifier k, .IniEquals, .IniDoubleQuote, .IniString v,
      .IniDoubleQuote] []
    (IniParserTreeNode.mk s [IniParserTreeLeaf.mk k (.IniString v)]) []
    (parse_member_quoted s k v), parse_section_nil]
  simp

theorem parse_member_squoted (s k v : String) :
    parse_member [.IniIdentifier k, .IniEquals, .IniSingleQuote, .IniString v,
      .IniSingleQuote] (IniParserTreeNode.mk s []) =
      .ok (IniParserTreeNode.mk s [IniParserTreeLeaf.mk k (.IniString v)], []) := by
  simp [parse_member, parse_value, IniVariant.index, remove_head, as_identifier,
    as_equals, insert_child]

theorem parse_single_squoted (s k v : String) :
    parse_section [.IniLBrace, .IniSection s, .IniRBrace, .IniIdentifier k,
      .IniEquals, .IniSingleQuote, .IniString v, .IniSingleQuote] [] =
      .ok [IniParserTreeNode.mk s [IniParserTreeLeaf.mk k (.IniString v)]] := by
  rw [parse_section_step_ok s
    [.IniRBrace, .IniIdentifier k, .IniEquals, .IniSingleQuote, .IniString v,
      .IniSingleQuote] []
    (IniParserTreeNode.mk s [IniParserTreeLeaf.mk k (.IniString v)]) []
    (parse_member_squoted s k v), parse_section_nil]
  simp

theorem parse_single_number (s k : String) (q : ℚ) :
    parse_section [.IniLBrace, .IniSection s, .IniRBrace, .IniIdentifier k,
      .IniEquals, .IniNumber q] [] =
      .ok [IniParserTreeNode.mk s [IniParserTreeLeaf.mk k (.IniNumber q)]] := by
  rw [parse_section_step_ok s
    [.IniRBrace, .IniIdentifier k, .IniEquals, .IniNumber q] []
    (IniParserTreeNode.mk s [IniParserTreeLeaf.mk k (.IniNumber q)]) []
    (parse_member_number s k q), parse_section_nil]
  simp

/-! Helper lemmas about the query surface. -/

theorem has_child_false_iff_find_none (l : List IniParserTreeLeaf) (x : String) :
    has_child l x = false ↔ find_child l x = none := by
  induction l with
  | nil => simp [has_child, find_child]
  | cons child rest ih =>
    cases hc : (child.name == x) <;> simp [has_child, find_child, hc, ih]

theorem node_bracket_not_found (m : IniParserTreeNode) (x : String)
    (h : node_has_member m x = false) :
    node_bracket m x = .error (.runtime "libini error: member not found.") := by
  unfold node_has_member at h
  unfold node_bracket
  rw [(has_child_false_iff_find_none m.children x).mp h]

theorem find_child_first (cs1 : List IniParserTreeLeaf) (lf : IniParserTreeLeaf)
    (cs2 : List IniParserTreeLeaf) (x : String)
    (h3 : ∀ c ∈ cs1, c.name ≠ x) (h4 : lf.name = x) :
    find_child (cs1 ++ lf :: cs2) x = some lf := by
  induction cs1 with
  | nil => simp [find_child, h4]
  | cons c cs ih =>
    have hne : (c.name == x) = false := beq_eq_false_iff_ne.mpr (h3 c (by simp))
    simp only [List.cons_append, find_child, hne, Bool.false_eq_true, if_false]
    exact ih (fun m hm => h3 m (by simp [hm]))

theorem result_bracket_loop_skip (x : String) (n : IniParserTreeNode)
    (l2 : List IniParserTreeNode) :
    ∀ (l1 : List IniParserTreeNode), (∀ m ∈ l1, node_has_member m x = false) →
      result_bracket_loop (l1 ++ n :: l2) x = result_bracket_loop (n :: l2) x := by
  intro l1
  induction l1 with
  | nil => intro _; rfl
  | cons m ms ih =>
    intro h1
    have hm := node_bracket_not_found m x (h1 m (by simp))
    simp only [List.cons_append, result_bracket_loop, hm]
    exact ih (fun mm hmm => h1 mm (by simp [hmm]))

/-! Glue between the lexer and the parser for whole-file statements. -/

theorem parse_ok_of (cs : List Char) (tokens : List IniVariant)
    (roots : List IniParserTreeNode) (hlex : read_all cs = tokens)
    (hsec : parse_section tokens [] = .ok roots) :
    parse cs = .ok (IniParserResult.mk roots) := by
  unfold parse build_tree
  rw [hlex, hsec]

theorem parse_err_of (cs : List Char) (tokens : List IniVariant) (e : PErr)
    (hlex : read_all cs = tokens) (hsec : parse_section tokens [] = .error e) :
    parse cs = .error e := by
  unfold parse build_tree
  rw [hlex, hsec]

/-! Concrete tokenizations used by several claims. -/

theorem lex_bare_value : read_all "[S]\nK = x".data =
    [.IniLBrace, .IniSection "S", .IniRBrace, .IniIdentifier "K", .IniEquals,
      .IniIdentifier "x"] := by
  simp [read_all, read_loop, lex_emit, next_token, skip_ws_comments, skip_comment,
    next_token_switch, read_name, read_number, Delim.eval, is_whitespace, is_eol,
    is_comment, is_numeric, is_whitespace_or_eol, number_delimiter, parse_decimal,
    digits_to_nat, List.splitOn]

theorem lex_no_space : read_all "[S]\nK=42".data =
    [.IniLBrace, .IniSection "S", .IniRBrace, .IniIdentifier "K=42"] := by
  simp [read_all, read_loop, lex_emit, next_token, skip_ws_comments, skip_comment,
    next_token_switch, read_name, read_number, Delim.eval, is_whitespace, is_eol,
    is_comment, is_numeric, is_whitespace_or_eol, number_delimiter, parse_decimal,
    digits_to_nat, List.splitOn]

theorem lex_unclosed_bracket : read_all "[A\nK=1".data =
    [.IniLBrace, .IniSection "A\nK=1"] := by
  simp [read_all, read_loop, lex_emit, next_token, skip_ws_comments, skip_comment,
    next_token_switch, read_name, read_number, Delim.eval, is_whitespace, is_eol,
    is_comment, is_numeric, is_whitespace_or_eol, number_delimiter, parse_decimal,
    digits_to_nat, List.splitOn]

theorem lex_general_scenario : read_all "[general]\nname = \"alice\"\ncount = 42".data =
    [.IniLBrace, .IniSection "general", .IniRBrace, .IniIdentifier "name", .IniEquals,
      .IniDoubleQuote, .IniString "alice", .IniDoubleQuote, .IniIdentifier "count",
      .IniEquals, .IniNumber 42] := by
  simp [read_all, read_loop, lex_emit, next_token, skip_ws_comments, skip_comment,
    next_token_switch, read_name, read_number, Delim.eval, is_whitespace, is_eol,
    is_comment, is_numeric, is_whitespace_or_eol, number_delimiter, parse_decimal,
    digits_to_nat, List.splitOn]

/-- A bare identifier in value position makes parse_value throw
bad_variant_access, which parse_member rethrows. -/
theorem parse_member_bare_value (s k v : String) :
    parse_member [.IniIdentifier k, .IniEquals, .IniIdentifier v]
      (IniParserTreeNode.mk s []) = .error .bad_variant_access := by
  simp [parse_member, parse_value, IniVariant.index, remove_head, as_identifier,
    as_equals, insert_child]

theorem parse_bare_value_err : parse "[S]\nK = x".data =
    .error (.runtime parse_section_msg) := by
  refine parse_err_of _ _ _ lex_bare_value ?_
  exact parse_section_step_bva "S" [.IniRBrace, .IniIdentifier "K", .IniEquals,
    .IniIdentifier "x"] [] (parse_member_bare_value "S" "K" "x")

theorem parse_no_space_err : parse "[S]\nK=42".data =
    .error (.runtime parse_section_msg) := by
  refine parse_err_of _ _ _ lex_no_space ?_
  rw [parse_section_step_ok "S" [.IniRBrace, .IniIdentifier "K=42"] []
    (IniParserTreeNode.mk "S" []) [.IniIdentifier "K=42"]
    (parse_member_one (.IniIdentifier "K=42") (IniParserTreeNode.mk "S" []))]
  exact parse_section_single_err (.IniIdentifier "K=42") _ rfl

/-! Claim C1. -/

/-- Claim C1 (amended): for well-formed single-section, single-member files
of the shape left-bracket, section name S, right-bracket, newline, key K,
space, equals, space, value V — note the whitespace around the equals sign,
which the lexer requires — parsing succeeds and get_value on K returns
exactly V with its correct kind when V is a quoted string, double- or
single-quoted (String kind, quotes stripped), or a numeric literal (Number
kind, decimal value). Bare unquoted values, and files without the
whitespace around the equals sign, are instead rejected with the parser
runtime error (see the counterexample). -/
theorem C1_single_member_get_value :
    (∀ (S K V : List Char), S ≠ [] → (∀ c ∈ S, plain c ∧ c ≠ ']') →
      K ≠ [] → (∀ c ∈ K, plain c) → (∀ c ∈ K.head?.toList, c ≠ '[') →
      (∀ c ∈ V, c ≠ '"') → (∀ c ∈ V.head?.toList, plain c) →
      parse ('[' :: (S ++ ']' :: '\n' ::
          (K ++ ' ' :: '=' :: ' ' :: ('"' :: (V ++ ['"']))))) =
        .ok (IniParserResult.mk [IniParserTreeNode.mk (String.mk S)
          [IniParserTreeLeaf.mk (String.mk K) (.IniString (String.mk V))]]) ∧
      result_get_string (IniParserResult.mk [IniParserTreeNode.mk (String.mk S)
          [IniParserTreeLeaf.mk (String.mk K) (.IniString (String.mk V))]])
        (String.mk K) = .ok (String.mk V)) ∧
    (∀ (S K V : List Char), S ≠ [] → (∀ c ∈ S, plain c ∧ c ≠ ']') →
      K ≠ [] → (∀ c ∈ K, plain c) → (∀ c ∈ K.head?.toList, c ≠ '[') →
      (∀ c ∈ V, c ≠ '\'') → (∀ c ∈ V.head?.toList, plain c) →
      parse ('[' :: (S ++ ']' :: '\n' ::
          (K ++ ' ' :: '=' :: ' ' :: ('\'' :: (V ++ ['\'']))))) =
        .ok (IniParserResult.mk [IniParserTreeNode.mk (String.mk S)
          [IniParserTreeLeaf.mk (String.mk K) (.IniString (String.mk V))]]) ∧
      result_get_string (IniParserResult.mk [IniParserTreeNode.mk (String.mk S)
          [IniParserTreeLeaf.mk (String.mk K) (.IniString (String.mk V))]])
        (String.mk K) = .ok (String.mk V)) ∧
    (∀ (S K : List Char) (v0 : Char) (V2 : List Char),
      S ≠ [] → (∀ c ∈ S, plain c ∧ c ≠ ']') →
      K ≠ [] → (∀ c ∈ K, plain c) → (∀ c ∈ K.head?.toList, c ≠ '[') →
      is_numeric v0 = true →
      read_number (v0 :: V2) = (String.mk (v0 :: V2), []) →
      parse ('[' :: (S ++ ']' :: '\n' :: (K ++ ' ' :: '=' :: ' ' :: (v0 :: V2)))) =
        .ok (IniParserResult.mk [IniParserTreeNode.mk (String.mk S)
          [IniParserTreeLeaf.mk (String.mk K)
            (.IniNumber (parse_decimal (String.mk (v0 :: V2))))]]) ∧
      result_get_number (IniParserResult.mk [IniParserTreeNode.mk (String.mk S)
          [IniParserTreeLeaf.mk (String.mk K)
            (.IniNumber (parse_decimal (String.mk (v0 :: V2))))]])
        (String.mk K) = .ok (parse_decimal (String.mk (v0 :: V2)))) := by
  constructor
  · intro S K V hS0 hS hK0 hK hKh hV hVh
    have hlex : read_all ('[' :: (S ++ ']' :: '\n' ::
        (K ++ ' ' :: '=' :: ' ' :: ('"' :: (V ++ ['"']))))) =
        [.IniLBrace, .IniSection (String.mk S), .IniRBrace,
          .IniIdentifier (String.mk K), .IniEquals, .IniDoubleQuote,
          .IniString (String.mk V), .IniDoubleQuote] := by
      unfold read_all
      rw [lex_single_member_header S K ('"' :: (V ++ ['"'])) hS0 hS hK0 hK hKh,
        lex_quoted_value V hV hVh]
    refine ⟨parse_ok_of _ _ _ hlex
      (parse_single_quoted (String.mk S) (String.mk K) (String.mk V)), ?_⟩
    simp [result_get_string, result_bracket, result_bracket_loop, node_bracket,
      find_child, leaf_get_string]
  constructor
  · intro S K V hS0 hS hK0 hK hKh hV hVh
    have hlex : read_all ('[' :: (S ++ ']' :: '\n' ::
        (K ++ ' ' :: '=' :: ' ' :: ('\'' :: (V ++ ['\'']))))) =
        [.IniLBrace, .IniSection (String.mk S), .IniRBrace,
          .IniIdentifier (String.mk K), .IniEquals, .IniSingleQuote,
          .IniString (String.mk V), .IniSingleQuote] := by
      unfold read_all
      rw [lex_single_member_header S K ('\'' :: (V ++ ['\''])) hS0 hS hK0 hK hKh,
        lex_single_quoted_value V hV hVh]
    refine ⟨parse_ok_of _ _ _ hlex
      (parse_single_squoted (String.mk S) (String.mk K) (String.mk V)), ?_⟩
    simp [result_get_string, result_bracket, result_bracket_loop, node_bracket,
      find_child, leaf_get_string]
  · intro S K v0 V2 hS0 hS hK0 hK hKh hnum hread
    have hlex : read_all ('[' :: (S ++ ']' :: '\n' ::
        (K ++ ' ' :: '=' :: ' ' :: (v0 :: V2)))) =
        [.IniLBrace, .IniSection (String.mk S), .IniRBrace,
          .IniIdentifier (String.mk K), .IniEquals,
          .IniNumber (parse_decimal (String.mk (v0 :: V2)))] := by
      unfold read_all
      rw [lex_single_member_header S K (v0 :: V2) hS0 hS hK0 hK hKh,
        lex_number_value v0 V2 hnum hread]
    refine ⟨parse_ok_of _ _ _ hlex
      (parse_single_number (String.mk S) (String.mk K)
        (parse_decimal (String.mk (v0 :: V2)))), ?_⟩
    simp [result_get_number, result_bracket, result_bracket_loop, node_bracket,
      find_child, leaf_get_number]

/-- Claim C1, counterexample to the claim as stated: in the literal form
left-bracket S right-bracket newline K equals V with no whitespace, even a
numeric value is rejected (the key reader swallows the equals sign and the
value), and with whitespace a bare unquoted value is rejected by
parse_value; in neither case does get_value return the value. -/
theorem C1_counterexample :
    parse "[S]\nK=42".data = .error (.runtime parse_section_msg) ∧
    parse "[S]\nK = x".data = .error (.runtime parse_section_msg) :=
  ⟨parse_no_space_err, parse_bare_value_err⟩

/-- Claim C1, witness at concrete inputs. -/
theorem C1_witness :
    (parse ('[' :: ("gen".data ++ ']' :: '\n' ::
        ("key".data ++ ' ' :: '=' :: ' ' :: ('"' :: ("alice".data ++ ['"']))))) =
      .ok (IniParserResult.mk [IniParserTreeNode.mk (String.mk "gen".data)
        [IniParserTreeLeaf.mk (String.mk "key".data)
          (.IniString (String.mk "alice".data))]]) ∧
      result_get_string (IniParserResult.mk [IniParserTreeNode.mk (String.mk "gen".data)
        [IniParserTreeLeaf.mk (String.mk "key".data)
          (.IniString (String.mk "alice".data))]]) (String.mk "key".data) =
        .ok (String.mk "alice".data)) ∧
    (parse ('[' :: ("gen".data ++ ']' :: '\n' ::
        ("key".data ++ ' ' :: '=' :: ' ' :: ('\'' :: ("bob".data ++ ['\'']))))) =
      .ok (IniParserResult.mk [IniParserTreeNode.mk (String.mk "gen".data)
        [IniParserTreeLeaf.mk (String.mk "key".data)
          (.IniString (String.mk "bob".data))]]) ∧
      result_get_string (IniParserResult.mk [IniParserTreeNode.mk (String.mk "gen".data)
        [IniParserTreeLeaf.mk (String.mk "key".data)
          (.IniString (String.mk "bob".data))]]) (String.mk "key".data) =
        .ok (String.mk "bob".data)) ∧
    (parse ('[' :: ("gen".data ++ ']' :: '\n' ::
        ("key".data ++ ' ' :: '=' :: ' ' :: ('4' :: "2".data)))) =
      .ok (IniParserResult.mk [IniParserTreeNode.mk (String.mk "gen".data)
        [IniParserTreeLeaf.mk (String.mk "key".data)
          (.IniNumber (parse_decimal (String.mk ('4' :: "2".data))))]]) ∧
      result_get_number (IniParserResult.mk [IniParserTreeNode.mk (String.mk "gen".data)
        [IniParserTreeLeaf.mk (String.mk "key".data)
          (.IniNumber (parse_decimal (String.mk ('4' :: "2".data))))]])
        (String.mk "key".data) = .ok (parse_decimal (String.mk ('4' :: "2".data)))) :=
  ⟨C1_single_member_get_value.1 "gen".data "key".data "alice".data (by decide)
      (by decide) (by decide) (by decide) (by decide) (by decide) (by decide),
    C1_single_member_get_value.2.1 "gen".data "key".data "bob".data (by decide)
      (by decide) (by decide) (by decide) (by decide) (by decide) (by decide),
    C1_single_member_get_value.2.2 "gen".data "key".data '4' "2".data (by decide)
      (by decide) (by decide) (by decide) (by decide) (by decide) (by decide)⟩

/-! Claim C2. -/

/-- Claim C2, counterexample: parsing the malformed input with the section
bracket never closed does not raise any error — the lexer folds the whole
rest of the file into the section name (read_name never meets a right
bracket) and the parser happily builds a tree with that single, empty
section. -/
theorem C2_counterexample :
    parse "[A\nK=1".data =
      .ok (IniParserResult.mk [IniParserTreeNode.mk "A\nK=1" []]) := by
  refine parse_ok_of _ _ _ lex_unclosed_bracket ?_
  rw [parse_section_step_ok "A\nK=1" [] [] (IniParserTreeNode.mk "A\nK=1" []) []
    (parse_member_nil (IniParserTreeNode.mk "A\nK=1" [])), parse_section_nil]
  simp

/-- Claim C2 (amended): parsing the input left-bracket A newline K equals 1
does not raise a StructuralParseError (and does not crash): the missing
closing bracket is never detected, and the parse silently succeeds with a
single section named by the entire rest of the input, holding no members. -/
theorem C2_amended :
    build_tree "[A\nK=1".data = .ok [IniParserTreeNode.mk "A\nK=1" []] ∧
    result_has_member (IniParserResult.mk [IniParserTreeNode.mk "A\nK=1" []]) "K" =
      false := by
  constructor
  · unfold build_tree
    rw [lex_unclosed_bracket]
    rw [parse_section_step_ok "A\nK=1" [] [] (IniParserTreeNode.mk "A\nK=1" []) []
      (parse_member_nil (IniParserTreeNode.mk "A\nK=1" [])), parse_section_nil]
    simp
  · simp [result_has_member, result_has_member_loop, node_has_member, has_child]

/-! Claim C3. -/

/-- Claim C3: parsing the two-member file with section general, member name
bound to the quoted string alice and member count bound to the number 42
succeeds and yields exactly one section with exactly those two leaves, in
order, with String and Number kinds. -/
theorem C3_general_scenario :
    parse "[general]\nname = \"alice\"\ncount = 42".data =
      .ok (IniParserResult.mk [IniParserTreeNode.mk "general"
        [IniParserTreeLeaf.mk "name" (.IniString "alice"),
          IniParserTreeLeaf.mk "count" (.IniNumber 42)]]) := by
  refine parse_ok_of _ _ _ lex_general_scenario ?_
  have hm : parse_member [.IniIdentifier "name", .IniEquals, .IniDoubleQuote,
      .IniString "alice", .IniDoubleQuote, .IniIdentifier "count", .IniEquals,
      .IniNumber 42] (IniParserTreeNode.mk "general" []) =
      .ok (IniParserTreeNode.mk "general"
        [IniParserTreeLeaf.mk "name" (.IniString "alice"),
          IniParserTreeLeaf.mk "count" (.IniNumber 42)], []) := by
    simp [parse_member, parse_value, IniVariant.index, remove_head, as_identifier,
      as_equals, insert_child]
  rw [parse_section_step_ok "general"
    [.IniRBrace, .IniIdentifier "name", .IniEquals, .IniDoubleQuote,
      .IniString "alice", .IniDoubleQuote, .IniIdentifier "count", .IniEquals,
      .IniNumber 42] []
    (IniParserTreeNode.mk "general"
      [IniParserTreeLeaf.mk "name" (.IniString "alice"),
        IniParserTreeLeaf.mk "count" (.IniNumber 42)]) [] hm, parse_section_nil]
  simp

/-! Claim C4. -/

/-- Claim C4 (amended): for every token sequence and current section node,
parse_member returns without raising an error whenever fewer than 3 tokens
remain, or whenever the front token is an IniLBrace token (variant index 5,
the start of a new section) — not an IniSection token as the claim states;
in the IniLBrace case the token sequence is returned untouched, the bracket
left unconsumed for parse_section to handle. -/
theorem C4_parse_member_stops (tokens : List IniVariant) (node : IniParserTreeNode)
    (h : tokens.length < 3 ∨ ∃ rest, tokens = .IniLBrace :: rest) :
    parse_member tokens node = .ok (node, tokens) := by
  rcases h with h | ⟨rest, rfl⟩
  · rw [parse_member.eq_def, if_pos h]
  · by_cases hl : (IniVariant.IniLBrace :: rest).length < 3
    · rw [parse_member.eq_def, if_pos hl]
    · rcases rest with _ | ⟨t2, rest2⟩
      · exact absurd (by simp) hl
      rcases rest2 with _ | ⟨t3, rest3⟩
      · exact absurd (by simp) hl
      rw [parse_member.eq_def, if_neg hl]
      rfl

/-- Claim C4, counterexample to the claim as stated: with three tokens
remaining and an IniSection token in front, parse_member does not return
silently — std::get throws bad_variant_access (the parse_member stop
condition checks variant index 5, IniLBrace, not IniSection). -/
theorem C4_counterexample :
    parse_member [.IniSection "a", .IniEquals, .IniNumber 1]
      (IniParserTreeNode.mk "s" []) = .error .bad_variant_access := by
  simp [parse_member, parse_value, IniVariant.index, remove_head, as_identifier,
    as_equals, insert_child]

/-- Claim C4, witness: a front IniLBrace with four tokens remaining is left
unconsumed. -/
theorem C4_witness :
    parse_member [.IniLBrace, .IniEquals, .IniNumber 1, .IniEquals]
      (IniParserTreeNode.mk "s" []) =
      .ok (IniParserTreeNode.mk "s" [],
        [.IniLBrace, .IniEquals, .IniNumber 1, .IniEquals]) :=
  C4_parse_member_stops _ _ (Or.inr ⟨_, rfl⟩)

/-! Claim C5. -/

/-- Claim C5: for every number literal of the form digit-run, dot, digit-run
read as a value, the lexer assembles exactly the literal text, so the
Number token it emits carries exactly the decimal parse of that text — the
same value as a direct decimal parse of the same string. -/
theorem C5_number_round_trip (N F rest : List Char) (d : Delim)
    (hN0 : N ≠ []) (hF0 : F ≠ [])
    (hN : ∀ c ∈ N, is_numeric c = true) (hF : ∀ c ∈ F, is_numeric c = true)
    (hrest : ∀ r ∈ rest.head?.toList, is_numeric r = false) :
    read_number (N ++ '.' :: (F ++ rest)) =
      (String.mk N ++ "." ++ String.mk F, rest) ∧
    (lex_emit .Number (N ++ '.' :: (F ++ rest)) d).1 =
      some (.IniNumber (parse_decimal (String.mk N ++ "." ++ String.mk F))) := by
  have h := read_number_dot N F rest hN hF hrest
  refine ⟨h, ?_⟩
  simp only [lex_emit]
  rw [h]

/-- Claim C5, witness at the literal 4.25. -/
theorem C5_witness :
    read_number (['4'] ++ '.' :: (['2', '5'] ++ [])) =
      (String.mk ['4'] ++ "." ++ String.mk ['2', '5'], []) ∧
    (lex_emit .Number (['4'] ++ '.' :: (['2', '5'] ++ [])) .dws).1 =
      some (.IniNumber (parse_decimal (String.mk ['4'] ++ "." ++ String.mk ['2', '5']))) :=
  C5_number_round_trip ['4'] ['2', '5'] [] .dws (by decide) (by decide) (by decide)
    (by decide) (by decide)

/-! Claim C6. -/

theorem C6_loop_iff (l : List IniParserTreeNode) (x : String) :
    result_has_member_loop l x = false ↔
      result_bracket_loop l x = .error (.runtime "libini error: member not found") := by
  induction l with
  | nil => simp [result_has_member_loop, result_bracket_loop]
  | cons n ns ih =>
    cases hf : find_child n.children x with
    | none =>
      have hh : node_has_member n x = false := by
        unfold node_has_member
        exact (has_child_false_iff_find_none n.children x).mpr hf
      simp [result_has_member_loop, result_bracket_loop, node_bracket, hf, hh, ih]
    | some lf =>
      have hh : node_has_member n x = true := by
        unfold node_has_member
        cases hc : has_child n.children x
        · exact absurd ((has_child_false_iff_find_none n.children x).mp hc)
            (by simp [hf])
        · rfl
      simp [result_has_member_loop, result_bracket_loop, node_bracket, hf, hh]

/-- Claim C6: at the result level, has_member is false exactly when bracket
lookup raises the member-not-found runtime error, and likewise at the
single-node level (with that message's trailing period). -/
theorem C6_has_member_iff_lookup_error (r : IniParserResult) (x : String)
    (n : IniParserTreeNode) :
    (result_has_member r x = false ↔
      result_bracket r x = .error (.runtime "libini error: member not found")) ∧
    (node_has_member n x = false ↔
      node_bracket n x = .error (.runtime "libini error: member not found.")) := by
  refine ⟨C6_loop_iff r.roots x, ?_, ?_⟩
  · intro h
    exact node_bracket_not_found n x h
  · intro h
    unfold node_bracket at h
    unfold node_has_member
    cases hf : find_child n.children x with
    | none => exact (has_child_false_iff_find_none n.children x).mpr hf
    | some lf =>
      rw [hf] at h
      exact absurd h (by simp)

/-! Claim C7. -/

/-- Claim C7: lookup scans sections in parsed order and returns the first
matching leaf across sections: if no earlier section has the member and the
section n holds it, the leaf returned is the first matching child of n,
whatever bindings any later sections carry. -/
theorem C7_first_match (l1 : List IniParserTreeNode) (n : IniParserTreeNode)
    (l2 : List IniParserTreeNode) (x : String) (cs1 : List IniParserTreeLeaf)
    (lf : IniParserTreeLeaf) (cs2 : List IniParserTreeLeaf)
    (h1 : ∀ m ∈ l1, node_has_member m x = false)
    (h2 : n.children = cs1 ++ lf :: cs2)
    (h3 : ∀ c ∈ cs1, c.name ≠ x) (h4 : lf.name = x) :
    result_bracket (IniParserResult.mk (l1 ++ n :: l2)) x = .ok lf := by
  show result_bracket_loop (l1 ++ n :: l2) x = .ok lf
  rw [result_bracket_loop_skip x n l2 l1 h1]
  have hb : node_bracket n x = .ok lf := by
    unfold node_bracket
    rw [h2, find_child_first cs1 lf cs2 x h3 h4]
  simp [result_bracket_loop, hb]

/-- Claim C7, witness: the duplicate member name k in a later section is
never consulted. -/
theorem C7_witness :
    result_bracket (IniParserResult.mk
      ([] ++ (IniParserTreeNode.mk "a" [IniParserTreeLeaf.mk "k" (.IniNumber 1)]) ::
        [IniParserTreeNode.mk "b" [IniParserTreeLeaf.mk "k" (.IniNumber 2)]])) "k" =
      .ok (IniParserTreeLeaf.mk "k" (.IniNumber 1)) :=
  C7_first_match [] (IniParserTreeNode.mk "a" [IniParserTreeLeaf.mk "k" (.IniNumber 1)])
    [IniParserTreeNode.mk "b" [IniParserTreeLeaf.mk "k" (.IniNumber 2)]] "k"
    [] (IniParserTreeLeaf.mk "k" (.IniNumber 1)) []
    (by simp) rfl (by simp) rfl

/-! Claim C8. -/

/-- Claim C8 (amended): the lexer does not fail on an undecodable value:
non-numeric text following the equals sign (other than an opening quote) is
classified as an Identifier token read to end of line, not an error; and
std::stof is only ever invoked on a string that begins with the digit that
made the lexer choose the Number kind, so numeric decoding never receives
an empty or non-numeric-initial string. Tokenization always runs to
completion; a malformed value surfaces later as a parser error. -/
theorem C8_no_lex_error :
    (∀ (d : Delim) (c : Char), is_numeric c = false → (c == '\'') = false →
      (c == '"') = false → next_token_switch .Equals d c = (.Identifier, .deol)) ∧
    (∀ (c : Char) (rest : List Char), is_numeric c = true →
      ∃ l, (read_number (c :: rest)).1.data = c :: l) := by
  constructor
  · intro d c h1 h2 h3
    simp [next_token_switch, h1, h2, h3]
  · intro c rest hnum
    have hd : number_delimiter c = false := is_numeric_not_number_delimiter c hnum
    simp only [read_number, read_name, hd, Bool.false_eq_true, if_false]
    split
    · exact ⟨_, rfl⟩
    · exact ⟨_, rfl⟩

/-- Claim C8, counterexample to the claim as stated: tokenizing a file with
non-numeric text after the equals sign completes without any error, ending
in an Identifier token for that text. -/
theorem C8_counterexample :
    read_all "[S]\nK = x".data =
      [.IniLBrace, .IniSection "S", .IniRBrace, .IniIdentifier "K", .IniEquals,
        .IniIdentifier "x"] :=
  lex_bare_value

/-- Claim C8, witness at concrete characters. -/
theorem C8_witness :
    next_token_switch .Equals .dws 'x' = (.Identifier, .deol) ∧
    ∃ l, (read_number ('4' :: "2".data)).1.data = '4' :: l :=
  ⟨C8_no_lex_error.1 .dws 'x' (by decide) (by decide) (by decide),
    C8_no_lex_error.2 '4' "2".data (by decide)⟩

/-! Claim C9. -/

/-- Claim C9 (amended): an error raised while the background parse executes
is never delivered through the returned future: the worker runs
set_value(parse()) with no handler, so the exception escapes the detached
thread's start function and the process is terminated — the error is
neither re-raised at the handle nor silently dropped into a value. -/
theorem C9_async_error_terminates (cs : List Char) (e : PErr)
    (h : parse cs = .error e) : parse_async cs = .terminated := by
  unfold parse_async
  rw [h]

/-- Claim C9, counterexample to the claim as stated: a file whose parse
raises does not have the error re-raised when the future is awaited — the
async outcome is process termination. -/
theorem C9_counterexample :
    parse "[S]\nK = x".data = .error (.runtime parse_section_msg) ∧
    parse_async "[S]\nK = x".data = .terminated := by
  refine ⟨parse_bare_value_err, ?_⟩
  unfold parse_async
  rw [parse_bare_value_err]

/-- Claim C9, witness. -/
theorem C9_witness : parse_async "[S]\nK = x".data = .terminated :=
  C9_async_error_terminates _ _ parse_bare_value_err

/-! Claim C10. -/

/-- Claim C10: whenever whitespace and comment skipping leaves at least one
character, the first token read_all emits is a LeftBracket token, whatever
that character is — the transition from the initial Null state yields
LBrace unconditionally — and exactly one character is consumed for it, the
loop continuing on the rest of the skipped stream with no lexer failure. -/
theorem C10_first_token_lbrace (cs : List Char) (t : TokenType) (d2 : Delim)
    (c : Char) (rest : List Char)
    (h : next_token cs .Null .dfalse = (t, d2, c :: rest)) :
    t = .LBrace ∧ d2 = .dfalse ∧
      read_all cs = .IniLBrace ::
        read_loop (next_token rest .LBrace .dfalse).1
          (next_token rest .LBrace .dfalse).2.2
          (next_token rest .LBrace .dfalse).2.1 := by
  cases hsk : skip_ws_comments cs with
  | nil =>
    rw [next_token_of_skip_nil cs .Null .dfalse hsk] at h
    injection h with h1 hr
    injection hr with h2 h3
    exact absurd h3 (by simp)
  | cons c2 rest2 =>
    rw [next_token_of_skip cs c2 rest2 .Null .dfalse hsk] at h
    have hsw : next_token_switch .Null .dfalse c2 = (.LBrace, .dfalse) := rfl
    rw [hsw] at h
    injection h with h1 hr
    injection hr with h2 h3
    refine ⟨h1.symm, h2.symm, ?_⟩
    have hn1 : next_token cs .Null .dfalse = (.LBrace, .dfalse, c :: rest) := by
      rw [next_token_of_skip cs c2 rest2 .Null .dfalse hsk, hsw, h3]
    have st1 := read_loop_step .Null cs .dfalse none cs .LBrace .dfalse (c :: rest)
      (by decide) rfl hn1
    have st2 := read_loop_step .LBrace (c :: rest) .dfalse (some .IniLBrace) rest
      (next_token rest .LBrace .dfalse).1 (next_token rest .LBrace .dfalse).2.1
      (next_token rest .LBrace .dfalse).2.2 (by decide) rfl rfl
    unfold read_all
    rw [st1, st2]
    simp

/-- Claim C10, witness: an input that does not start with a left bracket is
still tokenized, its first character consumed for the LeftBracket token. -/
theorem C10_witness :
    read_all ['x', 'y'] = .IniLBrace ::
      read_loop (next_token ['y'] .LBrace .dfalse).1
        (next_token ['y'] .LBrace .dfalse).2.2
        (next_token ['y'] .LBrace .dfalse).2.1 :=
  (C10_first_token_lbrace ['x', 'y'] .LBrace .dfalse 'x' ['y']
    (by simp [next_token, skip_ws_comments, next_token_switch, is_whitespace_or_eol,
      is_eol, is_whitespace, is_comment])).2.2

end libini
